import Mathlib

/-!
Shallow embedding of the PredictGenie analysis pipeline:
CSV ingestion (`parseCsv`), the analysis orchestrator (`analyzeBatchProducts`
and the prediction-refinement step of `handleAnalysis`), the numeric/category
normalizer (`parseStrictNumber`, `inferCategory`, `analysisToPredictPayload`)
and the CSV exporters (`escapeCsvField`, `exportToCsv`).

Conventions of the embedding:
* JavaScript strings are Lean `String`s; character-level operations work on
  `String.data` (the list of characters).
* JavaScript numbers are exact rationals `ℚ`; a runtime value that may be a
  non-finite number (NaN, ±Infinity) or a non-number is modelled by `JsValue`.
  Floating-point rounding and overflow are abstracted away (no claim in this
  development depends on them).
* Asynchronous collaborator calls (the AI analysis service, the ML prediction
  service) are parameters of type `α → Except String β`: `Except.error`
  models a rejected promise, `Except.ok` a resolved one.
-/

/-- Model of a JavaScript runtime value as far as the numeric code observes
it: a finite number, a non-finite number (NaN or ±Infinity), a string, or
anything else (undefined, object, ...). -/
inductive JsValue where
  | num (v : ℚ)
  | nonFinite
  | str (s : String)
  | other
deriving DecidableEq, Repr

/-- Whether the character list `pre` is a prefix of `l` (used to search for a
substring, modelling JavaScript `String.prototype.includes`). -/
def charsStartWith : List Char → List Char → Bool
  | [], _ => true
  | _ :: _, [] => false
  | a :: as, b :: bs => a = b && charsStartWith as bs

/-- Whether the character list `sub` occurs contiguously inside `l`
(modelling JavaScript `String.prototype.includes`). -/
def charsContainSeq (sub : List Char) : List Char → Bool
  | [] => sub.isEmpty
  | c :: rest => charsStartWith sub (c :: rest) || charsContainSeq sub rest

/-- Model of JavaScript `s.includes(sub)`. -/
def strIncludes (s sub : String) : Bool :=
  charsContainSeq sub.data s.data

/-- Model of JavaScript `s.trim()`: strip whitespace from both ends. -/
def jsTrim (s : String) : String :=
  String.mk (((s.data.dropWhile Char.isWhitespace).reverse.dropWhile Char.isWhitespace).reverse)

/-- Model of JavaScript `s.toLowerCase()` (ASCII case folding, which covers
every keyword of the category table). -/
def strToLower (s : String) : String :=
  String.mk (s.data.map Char.toLower)

/-- Split a character list at every occurrence of the separator character
(JavaScript `s.split(sep)` semantics: no separator yields the whole string,
`n` separators yield `n + 1` pieces, possibly empty). -/
def splitOnChar (sep : Char) : List Char → List (List Char)
  | [] => [[]]
  | c :: rest =>
      let r := splitOnChar sep rest
      if c = sep then [] :: r
      else
        match r with
        | [] => [[c]]
        | h :: t => (c :: h) :: t

/-- Model of JavaScript `s.split(sep)` for a one-character separator. -/
def strSplitOnChar (sep : Char) (s : String) : List String :=
  (splitOnChar sep s.data).map String.mk

/-- Numeric value of a list of decimal digit characters (most significant
first). -/
def digitsToNat (ds : List Char) : ℕ :=
  ds.foldl (fun n c => 10 * n + (c.toNat - 48)) 0

/-- Source `src/services/mlMapper.ts`, `inferCategory`: case-insensitive
substring match against a fixed keyword table, first match wins, default
"general". -/
def inferCategory (name : String) : String :=
  let n := strToLower name
  if strIncludes n "shoe" || strIncludes n "sneaker" then "footwear"
  else if strIncludes n "phone" || strIncludes n "mobile" then "electronics"
  else if strIncludes n "shirt" || strIncludes n "t-shirt" then "apparel"
  else "general"

/-- Matcher for the regular expression of `parseStrictNumber` in
`src/services/mlMapper.ts`: an optional leading minus sign, one or more
digits, and an optional decimal point followed by one or more digits
(the pattern on the whole string). -/
def strictNumberShape (cs : List Char) : Bool :=
  let body := match cs with
    | '-' :: rest => rest
    | _ => cs
  let intPart := body.takeWhile Char.isDigit
  let afterInt := body.dropWhile Char.isDigit
  if intPart.isEmpty then false
  else match afterInt with
    | [] => true
    | '.' :: fracTail =>
        let fracPart := fracTail.takeWhile Char.isDigit
        let afterFrac := fracTail.dropWhile Char.isDigit
        !fracPart.isEmpty && afterFrac.isEmpty
    | _ => false

/-- Rational value of a character list that matches `strictNumberShape`
(JavaScript `Number(trimmed)` on such a string): the integer and fractional
digits over the power of ten of the fraction length, under the sign. -/
def strictNumberValue (cs : List Char) : ℚ :=
  let (sign, body) := match cs with
    | '-' :: rest => ((-1 : ℤ), rest)
    | _ => ((1 : ℤ), cs)
  let intPart := body.takeWhile Char.isDigit
  let afterInt := body.dropWhile Char.isDigit
  let fracPart := match afterInt with
    | '.' :: fracTail => fracTail.takeWhile Char.isDigit
    | _ => []
  mkRat (sign * ((digitsToNat intPart * 10 ^ fracPart.length + digitsToNat fracPart : ℕ) : ℤ))
    (10 ^ fracPart.length)

/-- Source `src/services/mlMapper.ts`, `parseStrictNumber`: a finite number
is accepted directly; a string is accepted only if its trimmed form matches
the strict decimal pattern; everything else yields `none` (the "invalid"
marker, `null` in the source). -/
def parseStrictNumber : JsValue → Option ℚ
  | JsValue.num v => some v
  | JsValue.nonFinite => none
  | JsValue.str s =>
      let trimmed := jsTrim s
      if strictNumberShape trimmed.data then some (strictNumberValue trimmed.data)
      else none
  | JsValue.other => none

/-- Source `src/types.ts`, `HistoricalPricePoint`. -/
structure HistoricalPricePoint where
  date : String
  price : ℚ
deriving DecidableEq, Repr

/-- Source `src/types.ts`, the `stockStatus` union type. -/
inductive StockStatus where
  | inStock
  | lowStock
  | outOfStock
deriving DecidableEq, Repr

/-- Source `src/types.ts`, the `priceTrend` union type. -/
inductive PriceTrend where
  | up
  | down
  | stable
deriving DecidableEq, Repr

/-- Source `src/types.ts`, `Competitor`. The `price` field is a `JsValue`
because the value arrives from parsed JSON and the mapper code defensively
re-parses it. -/
structure Competitor where
  url : String
  productName : String
  price : JsValue
  originalPrice : Option ℚ := none
  discountPercentage : Option ℚ := none
  stockStatus : StockStatus
  priceTrend : PriceTrend
  historicalPrices : Option (List HistoricalPricePoint) := none
deriving DecidableEq, Repr

/-- Source `src/types.ts`, `UserProduct`. As for `Competitor`, the
`currentPrice` arrives from parsed JSON and is modelled as a `JsValue`. -/
structure UserProduct where
  url : Option String := none
  productName : String
  currentPrice : JsValue
  originalPrice : Option ℚ := none
  discountPercentage : Option ℚ := none
  historicalPrices : Option (List HistoricalPricePoint) := none
deriving DecidableEq, Repr

/-- Source `src/types.ts`, the `sources` entries of `ProductAnalysis`. -/
structure WebSource where
  uri : String
  title : String
deriving DecidableEq, Repr

/-- Source `src/types.ts`, `ProductAnalysis`. -/
structure ProductAnalysis where
  userProduct : UserProduct
  competitors : List Competitor
  suggestedPrice : ℚ
  reasoning : String
  marketSummary : String
  historicalPriceAnalysis : String
  sources : Option (List WebSource) := none
deriving DecidableEq, Repr

/-- Source `src/types.ts`, `AnalysisResult`. -/
def AnalysisResult : Type := List ProductAnalysis

/-- Source `src/types.ts`, `CsvProduct`. `currentPrice` is the validated
finite number produced by `parseCsv`. -/
structure CsvProduct where
  productName : String
  currentPrice : ℚ
  userProductUrl : String
  competitorUrls : List String
deriving DecidableEq, Repr

/-- Source `src/services/priceService.ts`, `PredictPayload`. -/
structure PredictPayload where
  current_price : ℚ
  competitor_prices : List ℚ
  category : String
deriving DecidableEq, Repr

/-- Source `src/services/mlMapper.ts`, `analysisToPredictPayload`: strict-parse
each competitor price dropping failures, strict-parse the subject price
defaulting to 0, fall back to the single-element list of the subject price when
no competitor price survives, and infer the category from the product name. -/
def analysisToPredictPayload (a : ProductAnalysis) : PredictPayload :=
  let competitors := a.competitors.filterMap (fun c => parseStrictNumber c.price)
  let userPrice := parseStrictNumber a.userProduct.currentPrice
  { current_price := userPrice.getD 0
    competitor_prices := if competitors.length > 0 then competitors else [userPrice.getD 0]
    category := inferCategory a.userProduct.productName }

/-- Source `src/services/mlMapper.ts`, `analysesToPredictPayloads`. -/
def analysesToPredictPayloads (analyses : List ProductAnalysis) : List PredictPayload :=
  analyses.map analysisToPredictPayload

/-- Value of a hexadecimal digit character, if it is one. -/
def hexDigitVal (c : Char) : Option ℕ :=
  if c.isDigit then some (c.toNat - 48)
  else if 'a' ≤ c ∧ c ≤ 'f' then some (c.toNat - 87)
  else if 'A' ≤ c ∧ c ≤ 'F' then some (c.toNat - 55)
  else none

/-- Value of a non-empty digit string in the given base, if every character
is a digit of that base. -/
def radixDigitsVal (base : ℕ) (cs : List Char) : Option ℕ :=
  match cs with
  | [] => none
  | _ =>
      cs.foldl (fun acc c =>
        match acc, hexDigitVal c with
        | some n, some d => if d < base then some (base * n + d) else none
        | _, _ => none) (some 0)

/-- Exponent part of a JavaScript numeric string (after the `e`): an optional
sign followed by one or more digits. -/
def jsExponent (cs : List Char) : Option ℤ :=
  let (sign, body) := match cs with
    | '+' :: rest => ((1 : ℤ), rest)
    | '-' :: rest => ((-1 : ℤ), rest)
    | _ => ((1 : ℤ), cs)
  if body.isEmpty then none
  else if body.all Char.isDigit then some (sign * (digitsToNat body : ℤ))
  else none

/-- Unsigned decimal part of a JavaScript numeric string,
`digits [. digits] [exp]` or `. digits [exp]`, parsed into
(mantissa digits as one number, fraction length, exponent). -/
def jsDecimalParts (cs : List Char) : Option (ℕ × ℕ × ℤ) :=
  let intPart := cs.takeWhile Char.isDigit
  let rest1 := cs.dropWhile Char.isDigit
  match rest1 with
  | [] => if intPart.isEmpty then none else some (digitsToNat intPart, 0, 0)
  | '.' :: tail =>
      let fracPart := tail.takeWhile Char.isDigit
      let rest2 := tail.dropWhile Char.isDigit
      if intPart.isEmpty && fracPart.isEmpty then none
      else
        let mantissa := digitsToNat intPart * 10 ^ fracPart.length + digitsToNat fracPart
        match rest2 with
        | [] => some (mantissa, fracPart.length, 0)
        | e :: etail =>
            if e = 'e' ∨ e = 'E' then
              (jsExponent etail).map (fun k => (mantissa, fracPart.length, k))
            else none
  | e :: etail =>
      if (e = 'e' ∨ e = 'E') ∧ ¬intPart.isEmpty then
        (jsExponent etail).map (fun k => (digitsToNat intPart, 0, k))
      else none

/-- The exact rational `sign * mantissa * 10 ^ exp / 10 ^ fracLen`, built
with integer arithmetic only. -/
def ratOfParts (sign : ℤ) (mantissa fracLen : ℕ) (exp : ℤ) : ℚ :=
  if 0 ≤ exp then mkRat (sign * ((mantissa * 10 ^ exp.toNat : ℕ) : ℤ)) (10 ^ fracLen)
  else mkRat (sign * (mantissa : ℤ)) (10 ^ fracLen * 10 ^ (-exp).toNat)

/-- Model of the general JavaScript numeric coercion `Number(string)` used by
`parseCsv` in `src/components/ProductInputForm.tsx`: trims, maps the empty
string to 0, accepts hex/octal/binary literals and signed decimal literals
with optional exponent. `none` stands for a non-finite outcome (NaN on a
malformed string, or ±Infinity); exact floating-point rounding and overflow
are abstracted (values are exact rationals). -/
def jsNumber (s : String) : Option ℚ :=
  let cs := (jsTrim s).data
  match cs with
  | [] => some 0
  | '0' :: 'x' :: rest => (radixDigitsVal 16 rest).map (fun n => mkRat n 1)
  | '0' :: 'X' :: rest => (radixDigitsVal 16 rest).map (fun n => mkRat n 1)
  | '0' :: 'o' :: rest => (radixDigitsVal 8 rest).map (fun n => mkRat n 1)
  | '0' :: 'O' :: rest => (radixDigitsVal 8 rest).map (fun n => mkRat n 1)
  | '0' :: 'b' :: rest => (radixDigitsVal 2 rest).map (fun n => mkRat n 1)
  | '0' :: 'B' :: rest => (radixDigitsVal 2 rest).map (fun n => mkRat n 1)
  | _ =>
      let (sign, body) := match cs with
        | '+' :: rest => ((1 : ℤ), rest)
        | '-' :: rest => ((-1 : ℤ), rest)
        | _ => ((1 : ℤ), cs)
      if body = "Infinity".data then none
      else (jsDecimalParts body).map (fun p => ratOfParts sign p.1 p.2.1 p.2.2)

/-- Drop one trailing carriage return from a line (so that splitting on
newline models the JavaScript split on the pattern of an optional carriage
return followed by a newline). -/
def dropCR (l : String) : String :=
  if l.data.getLast? = some '\r' then String.mk l.data.dropLast else l

/-- Split raw text on line boundaries, consuming a carriage return that
immediately precedes each newline (JavaScript `text.split(/\r?\n/)`). -/
def splitLines (text : String) : List String :=
  (strSplitOnChar '\n' text).map dropCR

/-- The lines retained by `parseCsv` after discarding blank lines
(JavaScript `.filter(line => line.trim() !== '')`). -/
def nonBlankLines (text : String) : List String :=
  (splitLines text).filter (fun l => jsTrim l ≠ "")

/-- Error message of `parseCsv` for a wrong column count. -/
def colCountMsg (rowNum expected found : ℕ) : String :=
  "CSV parsing failed on row " ++ toString rowNum ++
    ": Incorrect number of columns. Expected " ++ toString expected ++
    ", but found " ++ toString found ++ ". Please check for extra commas."

/-- Error message of `parseCsv` for an empty product name. -/
def emptyNameMsg (rowNum : ℕ) : String :=
  "CSV parsing failed on row " ++ toString rowNum ++
    ": The 'productName' column cannot be empty."

/-- Error message of `parseCsv` for an empty current price. -/
def emptyPriceMsg (rowNum : ℕ) : String :=
  "CSV parsing failed on row " ++ toString rowNum ++
    ": The 'currentPrice' column cannot be empty."

/-- Error message of `parseCsv` for a current price that does not coerce to a
finite number. -/
def invalidPriceMsg (rowNum : ℕ) (value : String) : String :=
  "CSV parsing failed on row " ++ toString rowNum ++
    ": The value \"" ++ value ++ "\" in 'currentPrice' is not a valid number."

/-- Error message of `parseCsv` for a negative price. -/
def negativePriceMsg (rowNum : ℕ) (value : String) : String :=
  "CSV parsing failed on row " ++ toString rowNum ++
    ": The price \"" ++ value ++ "\" cannot be negative."

/-- Error message of `parseCsv` for a missing required header column. -/
def missingHeaderMsg (required : String) : String :=
  "CSV parsing failed: The header is missing the required column \"" ++ required ++ "\"."

/-- Error message of `parseCsv` for an empty or header-only file. -/
def emptyFileMsg : String :=
  "CSV parsing failed: The file is empty or contains only a header row."

/-- The field map built by `parseCsv`'s reduce over the header: the value of
column `col` is the trimmed row value at the last header position named
`col`, the empty string when the position is beyond the row or the column is
absent (JavaScript `values[i] ? values[i].trim() : ''` with a missing
property reading as undefined, hence empty in every later use). -/
def fieldValue (header values : List String) (col : String) : String :=
  let idxs := (List.range header.length).filter (fun i => header.get? i = some col)
  match idxs.getLast? with
  | none => ""
  | some i => jsTrim ((values.get? i).getD "")

/-- Validation of one data row of `parseCsv` (the body of the `rows.map`
callback in `src/components/ProductInputForm.tsx`): split on commas, check
the column count, then the non-emptiness of `productName` and
`currentPrice`, then that the price coerces to a finite non-negative
number. -/
def validateRow (header : List String) (rowNum : ℕ) (row : String) : Except String CsvProduct :=
  let values := strSplitOnChar ',' row
  if values.length ≠ header.length then
    Except.error (colCountMsg rowNum header.length values.length)
  else
    let productName := fieldValue header values "productName"
    let currentPriceStr := fieldValue header values "currentPrice"
    if productName = "" then Except.error (emptyNameMsg rowNum)
    else if currentPriceStr = "" then Except.error (emptyPriceMsg rowNum)
    else
      match jsNumber currentPriceStr with
      | none => Except.error (invalidPriceMsg rowNum currentPriceStr)
      | some priceAsNumber =>
          if priceAsNumber < 0 then Except.error (negativePriceMsg rowNum currentPriceStr)
          else Except.ok
            { productName := productName
              currentPrice := priceAsNumber
              userProductUrl := fieldValue header values "userProductUrl"
              competitorUrls :=
                (strSplitOnChar ';' (fieldValue header values "competitorUrls")).map jsTrim
                  |>.filter (fun u => u ≠ "") }

/-- Fail-fast validation of the data rows, numbering the first one
`startNum` (`parseCsv` numbers the first data row 2: header is row 1). A
thrown error from the map callback aborts the whole map, so the first
invalid row's error is the result. -/
def parseRows (header : List String) : List String → ℕ → Except String (List CsvProduct)
  | [], _ => Except.ok []
  | r :: rest, n =>
      match validateRow header n r with
      | Except.error e => Except.error e
      | Except.ok p =>
          match parseRows header rest (n + 1) with
          | Except.error e => Except.error e
          | Except.ok ps => Except.ok (p :: ps)

/-- The header columns of `parseCsv`: the first retained line split on
commas, each column name trimmed. -/
def csvHeaderCols (text : String) : List String :=
  (strSplitOnChar ',' ((nonBlankLines text).headD "")).map jsTrim

/-- Source `src/components/ProductInputForm.tsx`, `parseCsv`: split into
lines, drop blank lines, require at least a header and one data row, check
the required header columns, then validate every data row fail-fast. -/
def parseCsv (text : String) : Except String (List CsvProduct) :=
  let lines := nonBlankLines text
  if lines.length < 2 then Except.error emptyFileMsg
  else
    let header := csvHeaderCols text
    if header.contains "productName" = false then
      Except.error (missingHeaderMsg "productName")
    else if header.contains "currentPrice" = false then
      Except.error (missingHeaderMsg "currentPrice")
    else parseRows header (lines.drop 1) 2

/-- Aggregate error message of `analyzeBatchProducts` when every item
failed, naming every failed product. -/
def aggregateFailureMsg (failed : List String) : String :=
  "All product analyses failed. The following products could not be analyzed: " ++
    String.intercalate ", " failed ++ ". Please check the console for more details."

/-- Source `src/services/geminiService.ts`, `analyzeBatchProducts`, with the
AI collaborator (`performSingleAnalysis` applied to the derived identifier)
abstracted as the parameter `ai`. The settled outcomes are walked in input
order: fulfilled values are collected, rejected items record the product
name; an all-failed non-empty batch raises the aggregate error. -/
def analyzeBatchProducts (products : List CsvProduct)
    (ai : CsvProduct → Except String ProductAnalysis) :
    Except String (List ProductAnalysis) :=
  let results := products.map ai
  let successfulAnalyses := results.filterMap Except.toOption
  let failedAnalyses := (products.zip results).filterMap (fun pr =>
    match pr.2 with
    | Except.error _ => some pr.1.productName
    | Except.ok _ => none)
  if successfulAnalyses.length = 0 ∧ results.length > 0 then
    Except.error (aggregateFailureMsg failedAnalyses)
  else Except.ok successfulAnalyses

/-- Source `src/App.tsx`, `handleAnalysis`, single-mode prediction refinement
(the inner try/catch): derive the payload, call the prediction collaborator;
a resolved finite value overwrites `suggestedPrice` with its rounding
(JavaScript `Math.round`, which is `round` on exact rationals); a rejected
call or a non-finite value leaves the analysis unchanged and is swallowed
(only logged). -/
def refineSingle (a : ProductAnalysis)
    (predictPrice : PredictPayload → Except String (Option ℚ)) : ProductAnalysis :=
  match predictPrice (analysisToPredictPayload a) with
  | Except.ok (some predicted) => { a with suggestedPrice := (round predicted : ℤ) }
  | Except.ok none => a
  | Except.error _ => a

/-- Source `src/App.tsx`, `handleAnalysis`, batch-mode prediction refinement
(the `preds.forEach` loop): the analysis at index `i` gets its
`suggestedPrice` overwritten with the rounded prediction at index `i` when
that prediction is finite, and is untouched otherwise. -/
def refineBatch : List ProductAnalysis → List (Option ℚ) → List ProductAnalysis
  | analyses, [] => analyses
  | [], _ => []
  | a :: rest, p :: ps =>
      (match p with
       | some v => { a with suggestedPrice := (round v : ℤ) }
       | none => a) :: refineBatch rest ps

/-- Source `src/App.tsx`, `handleAnalysis`, the URL branch: an AI failure
fails the whole operation; on AI success the refinement step runs and the
operation succeeds with the one refined analysis. -/
def handleAnalysisUrl (ai : Except String ProductAnalysis)
    (predictPrice : PredictPayload → Except String (Option ℚ)) :
    Except String (List ProductAnalysis) :=
  match ai with
  | Except.error e => Except.error e
  | Except.ok singleResult => Except.ok [refineSingle singleResult predictPrice]

/-- Source `src/App.tsx`, `handleAnalysis`, the CSV branch: batch AI
analysis, then one collective batch prediction whose failure falls back to
the unrefined analyses (swallowed, only logged). -/
def handleAnalysisCsv (products : List CsvProduct)
    (ai : CsvProduct → Except String ProductAnalysis)
    (predictBatch : List PredictPayload → Except String (List (Option ℚ))) :
    Except String (List ProductAnalysis) :=
  match analyzeBatchProducts products ai with
  | Except.error e => Except.error e
  | Except.ok analyses =>
      match predictBatch (analysesToPredictPayloads analyses) with
      | Except.ok preds => Except.ok (refineBatch analyses preds)
      | Except.error _ => Except.ok analyses

/-- Replace every double quote by two double quotes (the JavaScript
`stringField.replace(/"/g, '""')` of `escapeCsvField`). -/
def doubleQuotes : List Char → List Char
  | [] => []
  | c :: rest => if c = '"' then '"' :: '"' :: doubleQuotes rest else c :: doubleQuotes rest

/-- Source `src/utils/exportUtils.ts` (unnamed source file), `escapeCsvField`:
null/undefined becomes the empty string (`none` here); a string form
containing a comma, a double quote or a newline is wrapped in double quotes
with internal double quotes doubled; otherwise it is returned unchanged. -/
def escapeCsvField (field : Option String) : String :=
  match field with
  | none => ""
  | some stringField =>
      if stringField.data.contains ',' || stringField.data.contains '"'
          || stringField.data.contains '\n' then
        String.mk ('"' :: (doubleQuotes stringField.data ++ ['"']))
      else stringField

/-- Undo `doubleQuotes`: collapse every pair of double quotes to one. -/
def undoubleQuotes : List Char → List Char
  | [] => []
  | [c] => [c]
  | c :: d :: rest =>
      if c = '"' ∧ d = '"' then '"' :: undoubleQuotes rest
      else c :: undoubleQuotes (d :: rest)

/-- The inverse of the canonical CSV quoting rule on characters: a list
wrapped in double quotes is unwrapped with doubled double quotes collapsed;
any other list is taken verbatim. -/
def unescapeChars (cs : List Char) : List Char :=
  match cs with
  | [] => []
  | c :: rest =>
      if c = '"' ∧ rest.getLast? = some '"' then undoubleQuotes rest.dropLast
      else c :: rest

/-- The inverse of the canonical CSV quoting rule (from the spec's round-trip
requirement). -/
def unescapeCsvField (s : String) : String :=
  String.mk (unescapeChars s.data)

/-- String form of an exact rational for CSV output. JavaScript renders an
integral number without a decimal point; the non-integral case approximates
the floating-point formatting, which no claim depends on. -/
def ratToString (q : ℚ) : String :=
  if q.den = 1 then toString q.num else toString q.num ++ "/" ++ toString q.den

/-- String form of the stock status union values. -/
def stockStatusToString : StockStatus → String
  | StockStatus.inStock => "In Stock"
  | StockStatus.lowStock => "Low Stock"
  | StockStatus.outOfStock => "Out of Stock"

/-- String form of the price trend union values. -/
def priceTrendToString : PriceTrend → String
  | PriceTrend.up => "up"
  | PriceTrend.down => "down"
  | PriceTrend.stable => "stable"

/-- JavaScript `String(value)` on the runtime values `escapeCsvField` sees;
the non-finite and non-number renderings approximate the JavaScript ones,
which no claim depends on. -/
def jsValueToString : JsValue → String
  | JsValue.num q => ratToString q
  | JsValue.nonFinite => "NaN"
  | JsValue.str s => s
  | JsValue.other => "undefined"

/-- Source `src/utils/exportUtils.ts`, `exportToCsv`: the maximum competitor
count across the whole result set (`Math.max(0, ...data.map(...))`). -/
def maxCompetitors (data : List ProductAnalysis) : ℕ :=
  data.foldl (fun m a => max m a.competitors.length) 0

/-- Source `src/utils/exportUtils.ts`, `exportToCsv`: the six fixed base
header columns. -/
def baseHeaders : List String :=
  ["Product Name", "Current Price", "Suggested Price", "Market Summary",
   "Historical Price Analysis", "Reasoning"]

/-- The four dynamic header columns of competitor group `i` (1-based). -/
def competitorGroupHeaders (i : ℕ) : List String :=
  ["Competitor " ++ toString i ++ " Name",
   "Competitor " ++ toString i ++ " Price",
   "Competitor " ++ toString i ++ " Stock Status",
   "Competitor " ++ toString i ++ " Price Trend"]

/-- Source `src/utils/exportUtils.ts`, `exportToCsv`: the dynamic competitor
header columns for groups 1..maxC (the `for` loop pushing four headers per
group). -/
def competitorHeaders (maxC : ℕ) : List String :=
  (List.range maxC).flatMap (fun i => competitorGroupHeaders (i + 1))

/-- The full header row of the full-CSV export. -/
def csvHeaders (data : List ProductAnalysis) : List String :=
  baseHeaders ++ competitorHeaders (maxCompetitors data)

/-- Source `src/utils/exportUtils.ts`, `exportToCsv`: the six escaped base
fields of one row. -/
def baseRow (a : ProductAnalysis) : List String :=
  [escapeCsvField (some a.userProduct.productName),
   escapeCsvField (some (jsValueToString a.userProduct.currentPrice)),
   escapeCsvField (some (ratToString a.suggestedPrice)),
   escapeCsvField (some a.marketSummary),
   escapeCsvField (some a.historicalPriceAnalysis),
   escapeCsvField (some a.reasoning)]

/-- Source `src/utils/exportUtils.ts`, `exportToCsv`: the four row fields of
competitor group `i` (0-based): the competitor's escaped fields when one
exists at that index, four empty strings otherwise. -/
def competitorGroup (competitors : List Competitor) (i : ℕ) : List String :=
  match competitors.get? i with
  | some competitor =>
      [escapeCsvField (some competitor.productName),
       escapeCsvField (some (jsValueToString competitor.price)),
       escapeCsvField (some (stockStatusToString competitor.stockStatus)),
       escapeCsvField (some (priceTrendToString competitor.priceTrend))]
  | none => ["", "", "", ""]

/-- One data row of the full-CSV export: the base fields followed by
`maxC` competitor groups. -/
def csvRow (maxC : ℕ) (a : ProductAnalysis) : List String :=
  baseRow a ++ (List.range maxC).flatMap (competitorGroup a.competitors)

/-- Source `src/utils/exportUtils.ts`, `exportToCsv`: `none` models the
early return on empty data (no file produced); otherwise the header line and
one line per analysis, fields joined by commas and lines by newlines. -/
def exportToCsv (data : List ProductAnalysis) : Option String :=
  if data.length = 0 then none
  else some (String.intercalate "\n"
    (String.intercalate "," (csvHeaders data) ::
      data.map (fun a => String.intercalate "," (csvRow (maxCompetitors data) a))))

/-- A sample user product for concrete witnesses. -/
def sampleUserProduct : UserProduct :=
  { productName := "Widget", currentPrice := JsValue.num 500 }

/-- A sample completed analysis with an AI-derived suggested price of 500. -/
def sampleAnalysis : ProductAnalysis :=
  { userProduct := sampleUserProduct
    competitors := []
    suggestedPrice := 500
    reasoning := "r"
    marketSummary := "m"
    historicalPriceAnalysis := "h" }

/-- C8: `parseStrictNumber` returns a value for a number input iff the number
is finite, and for a string input iff its trimmed form matches the pattern of
an optional minus sign, digits, and an optional single decimal point with
trailing digits; every other input (empty string, exponent notation,
thousands separators, trailing units, non-number runtime values) yields the
invalid marker, and the function is total (never throws). -/
theorem parseStrictNumber_spec :
    (∀ v : ℚ, parseStrictNumber (JsValue.num v) = some v) ∧
    parseStrictNumber JsValue.nonFinite = none ∧
    parseStrictNumber JsValue.other = none ∧
    (∀ s : String,
      (parseStrictNumber (JsValue.str s)).isSome = strictNumberShape (jsTrim s).data) ∧
    parseStrictNumber (JsValue.str ("123")) = some 123 ∧
    parseStrictNumber (JsValue.str ("-4.5")) = some (-(45 / 10 : ℚ)) ∧
    parseStrictNumber (JsValue.str ("")) = none ∧
    parseStrictNumber (JsValue.str ("1e3")) = none ∧
    parseStrictNumber (JsValue.str ("1,000")) = none ∧
    parseStrictNumber (JsValue.str ("123abc")) = none := by
  refine ⟨fun v => rfl, rfl, rfl, fun s => ?_, by decide, ?_, by decide, by decide,
    by decide, by decide⟩
  · unfold parseStrictNumber
    by_cases h : strictNumberShape (jsTrim s).data <;> simp [h]
  · have h : parseStrictNumber (JsValue.str ("-4.5")) = some (mkRat (-45) 10) := by decide
    rw [h]
    norm_num [Rat.mkRat_eq_div]

/-- C9: the prediction payload derived from a completed analysis has the
strict parse of the subject price (default 0) as current price, the
surviving strict parses of the competitor prices — or, when none survive,
the one-element fallback of the subject's own defaulted price — as the
competitor price list (hence that list is never empty), and the category
inferred from the subject's product name; in particular, no competitors, an
unparseable subject price and a keyword-free name yield the payload
(0, [0], "general"). -/
theorem analysisToPredictPayload_spec :
    (∀ a : ProductAnalysis,
      (analysisToPredictPayload a).current_price =
        (parseStrictNumber a.userProduct.currentPrice).getD 0 ∧
      (analysisToPredictPayload a).category = inferCategory a.userProduct.productName ∧
      (analysisToPredictPayload a).competitor_prices =
        (if (a.competitors.filterMap (fun c => parseStrictNumber c.price)).length > 0 then
          a.competitors.filterMap (fun c => parseStrictNumber c.price)
        else [(parseStrictNumber a.userProduct.currentPrice).getD 0]) ∧
      (analysisToPredictPayload a).competitor_prices ≠ []) ∧
    analysisToPredictPayload
      { userProduct := { productName := "Widget", currentPrice := JsValue.str ("abc") }
        competitors := []
        suggestedPrice := 500
        reasoning := ""
        marketSummary := ""
        historicalPriceAnalysis := "" } =
      { current_price := 0, competitor_prices := [0], category := "general" } := by
  refine ⟨fun a => ⟨rfl, rfl, rfl, ?_⟩, by decide⟩
  by_cases h : (a.competitors.filterMap (fun c => parseStrictNumber c.price)).length > 0
  · simpa [analysisToPredictPayload, h] using List.length_pos.mp h
  · simp [analysisToPredictPayload, h]

/-- The element of the refined batch at index `i`: the original analysis at
`i`, with its suggested price overwritten exactly when the prediction at the
same index exists and is finite. -/
theorem refineBatch_get? (analyses : List ProductAnalysis) (preds : List (Option ℚ))
    (i : ℕ) :
    (refineBatch analyses preds).get? i = (analyses.get? i).map (fun a =>
      match preds.get? i with
      | some (some v) => { a with suggestedPrice := (round v : ℤ) }
      | _ => a) := by
  induction analyses generalizing preds i with
  | nil => cases preds <;> simp [refineBatch]
  | cons a rest ih =>
      cases preds with
      | nil => cases i <;> simp [refineBatch]
      | cons p ps =>
          cases i with
          | zero => cases p <;> simp [refineBatch]
          | succ j => simpa [refineBatch] using ih ps j

/-- C10: the prediction-refinement step mutates only `suggestedPrice`; every
other field of every analysis returned to the caller equals the AI
collaborator's value, in single mode and in batch mode, for every outcome of
the prediction call (the batch also keeps its length). -/
theorem refinement_frame :
    (∀ (a : ProductAnalysis) (f : PredictPayload → Except String (Option ℚ)),
      (refineSingle a f).userProduct = a.userProduct ∧
      (refineSingle a f).competitors = a.competitors ∧
      (refineSingle a f).reasoning = a.reasoning ∧
      (refineSingle a f).marketSummary = a.marketSummary ∧
      (refineSingle a f).historicalPriceAnalysis = a.historicalPriceAnalysis ∧
      (refineSingle a f).sources = a.sources) ∧
    (∀ (analyses : List ProductAnalysis) (preds : List (Option ℚ)) (i : ℕ),
      ((refineBatch analyses preds).get? i).map ProductAnalysis.userProduct =
        ((analyses.get? i).map ProductAnalysis.userProduct) ∧
      ((refineBatch analyses preds).get? i).map ProductAnalysis.competitors =
        ((analyses.get? i).map ProductAnalysis.competitors) ∧
      ((refineBatch analyses preds).get? i).map ProductAnalysis.reasoning =
        ((analyses.get? i).map ProductAnalysis.reasoning) ∧
      ((refineBatch analyses preds).get? i).map ProductAnalysis.marketSummary =
        ((analyses.get? i).map ProductAnalysis.marketSummary) ∧
      ((refineBatch analyses preds).get? i).map ProductAnalysis.historicalPriceAnalysis =
        ((analyses.get? i).map ProductAnalysis.historicalPriceAnalysis) ∧
      ((refineBatch analyses preds).get? i).map ProductAnalysis.sources =
        ((analyses.get? i).map ProductAnalysis.sources)) ∧
    (∀ (analyses : List ProductAnalysis) (preds : List (Option ℚ)),
      (refineBatch analyses preds).length = analyses.length) := by
  refine ⟨fun a f => ?_, fun analyses preds i => ?_, fun analyses preds => ?_⟩
  · unfold refineSingle
    rcases f (analysisToPredictPayload a) with e | (_ | v) <;> simp
  · rw [refineBatch_get?]
    rcases analyses.get? i with _ | a
    · simp
    · rcases preds.get? i with _ | (_ | v) <;> simp
  · induction analyses generalizing preds with
    | nil => cases preds <;> simp [refineBatch]
    | cons a rest ih =>
        cases preds with
        | nil => simp [refineBatch]
        | cons p ps => simpa [refineBatch] using ih ps

/-- C1: on a prediction call resolving to a finite value `v`, the refined
analysis's suggested price is the rounding of `v`; on a rejected prediction
call the analysis is returned unchanged, and the surrounding single-mode
operation still succeeds (the failure is never surfaced). -/
theorem prediction_refinement_single :
    ∀ (a : ProductAnalysis) (f : PredictPayload → Except String (Option ℚ)),
      (∀ v : ℚ, f (analysisToPredictPayload a) = Except.ok (some v) →
        (refineSingle a f).suggestedPrice = ((round v : ℤ) : ℚ)) ∧
      (∀ e : String, f (analysisToPredictPayload a) = Except.error e →
        refineSingle a f = a) ∧
      handleAnalysisUrl (Except.ok a) f = Except.ok [refineSingle a f] := by
  intro a f
  refine ⟨fun v hv => ?_, fun e he => ?_, rfl⟩
  · unfold refineSingle
    rw [hv]
  · unfold refineSingle
    rw [he]

/-- Witness for C1 at concrete inputs: an AI-derived suggested price of 500
survives a failing prediction call unchanged, and a prediction of 450.7
becomes 451. -/
theorem prediction_refinement_single_witness :
    (refineSingle sampleAnalysis (fun _ => Except.error ("boom"))).suggestedPrice = 500 ∧
    (refineSingle sampleAnalysis
      (fun _ => Except.ok (some (mkRat 4507 10)))).suggestedPrice = 451 := by
  constructor
  · have h :=
      (prediction_refinement_single sampleAnalysis (fun _ => Except.error ("boom"))).2.1
        "boom" rfl
    rw [h]
    rfl
  · have h :=
      (prediction_refinement_single sampleAnalysis
        (fun _ => Except.ok (some (mkRat 4507 10)))).1 (mkRat 4507 10) rfl
    rw [h]
    norm_num [round_eq, Rat.mkRat_eq_div]

/-- A concrete CsvProduct for witnesses. -/
def mkCsvProduct (nm : String) (price : ℚ) : CsvProduct :=
  { productName := nm, currentPrice := price, userProductUrl := "", competitorUrls := [] }

/-- A concrete completed analysis for witnesses. -/
def mkAnalysis (nm : String) (price : ℚ) : ProductAnalysis :=
  { userProduct := { productName := nm, currentPrice := JsValue.num price }
    competitors := []
    suggestedPrice := price
    reasoning := ""
    marketSummary := ""
    historicalPriceAnalysis := "" }

/-- C2: when at least one item of the batch succeeds, batch orchestration
returns exactly the successful analyses, in the original input order with
failed items omitted and their gaps closed. -/
theorem analyzeBatchProducts_partial_success :
    ∀ (products : List CsvProduct) (ai : CsvProduct → Except String ProductAnalysis),
      (∃ p ∈ products, ∃ a, ai p = Except.ok a) →
      analyzeBatchProducts products ai =
        Except.ok (products.filterMap (fun p => (ai p).toOption)) := by
  intro products ai h
  obtain ⟨p, hp, a, ha⟩ := h
  have hmem : a ∈ (products.map ai).filterMap Except.toOption := by
    apply List.mem_filterMap.mpr
    exact ⟨ai p, List.mem_map_of_mem ai hp, by rw [ha]; rfl⟩
  have hcond : ¬(((products.map ai).filterMap Except.toOption).length = 0 ∧
      (products.map ai).length > 0) := by
    rintro ⟨h1, -⟩
    rw [List.length_eq_zero.mp h1] at hmem
    exact List.not_mem_nil a hmem
  simp only [analyzeBatchProducts]
  rw [if_neg hcond, List.filterMap_map]
  rfl

/-- Witness for C2 at a concrete three-item batch whose second item fails:
the result has length 2 and is the first and third analyses in order. -/
theorem analyzeBatchProducts_partial_success_witness :
    analyzeBatchProducts
      [mkCsvProduct ("A") 1, mkCsvProduct ("B") 2, mkCsvProduct ("C") 3]
      (fun p => if p.productName = "B" then Except.error ("AI call failed")
        else Except.ok (mkAnalysis p.productName p.currentPrice)) =
      Except.ok [mkAnalysis ("A") 1, mkAnalysis ("C") 3] := by
  have h := analyzeBatchProducts_partial_success
    [mkCsvProduct ("A") 1, mkCsvProduct ("B") 2, mkCsvProduct ("C") 3]
    (fun p => if p.productName = "B" then Except.error ("AI call failed")
      else Except.ok (mkAnalysis p.productName p.currentPrice))
    ⟨mkCsvProduct ("A") 1, by simp, mkAnalysis ("A") 1, rfl⟩
  rw [h]
  rfl

/-- All AI outcomes rejected: no analysis survives the collecting walk. -/
theorem filterMap_toOption_nil_of_all_error
    (products : List CsvProduct) (ai : CsvProduct → Except String ProductAnalysis)
    (h : ∀ p ∈ products, ∃ e, ai p = Except.error e) :
    (products.map ai).filterMap Except.toOption = [] := by
  induction products with
  | nil => rfl
  | cons p rest ih =>
      obtain ⟨e, he⟩ := h p (List.mem_cons_self p rest)
      simp only [List.map_cons, List.filterMap_cons, he]
      exact ih (fun q hq => h q (List.mem_cons_of_mem p hq))

/-- All AI outcomes rejected: the recorded failure names are exactly the
product names, in input order. -/
theorem failed_names_of_all_error
    (products : List CsvProduct) (ai : CsvProduct → Except String ProductAnalysis)
    (h : ∀ p ∈ products, ∃ e, ai p = Except.error e) :
    (products.zip (products.map ai)).filterMap (fun pr =>
      match pr.2 with
      | Except.error _ => some pr.1.productName
      | Except.ok _ => none) = products.map (fun p => p.productName) := by
  induction products with
  | nil => rfl
  | cons p rest ih =>
      obtain ⟨e, he⟩ := h p (List.mem_cons_self p rest)
      simp only [List.map_cons, List.zip_cons_cons, List.filterMap_cons, he]
      rw [ih (fun q hq => h q (List.mem_cons_of_mem p hq))]

/-- C5: a non-empty batch in which every item's AI analysis fails raises one
aggregate error whose message names every failed product in input order
(rather than returning an empty result list); an empty batch raises no such
error and returns the empty result. -/
theorem analyzeBatchProducts_all_failed :
    (∀ (products : List CsvProduct) (ai : CsvProduct → Except String ProductAnalysis),
      products ≠ [] → (∀ p ∈ products, ∃ e, ai p = Except.error e) →
      analyzeBatchProducts products ai =
        Except.error (aggregateFailureMsg (products.map (fun p => p.productName)))) ∧
    (∀ ai : CsvProduct → Except String ProductAnalysis,
      analyzeBatchProducts [] ai = Except.ok []) := by
  constructor
  · intro products ai hne hall
    have h1 := filterMap_toOption_nil_of_all_error products ai hall
    have h2 := failed_names_of_all_error products ai hall
    simp only [analyzeBatchProducts, h1, h2, List.length_nil, List.length_map]
    rw [if_pos ⟨trivial, List.length_pos.mpr hne⟩]
  · intro ai
    rfl

/-- Witness for C5 at a concrete two-item batch where both AI calls fail:
one aggregate error naming both products; and the empty batch yields the
empty success list. -/
theorem analyzeBatchProducts_all_failed_witness :
    analyzeBatchProducts [mkCsvProduct ("A") 1, mkCsvProduct ("B") 2]
      (fun _ => Except.error ("AI call failed")) =
      Except.error (aggregateFailureMsg ["A", "B"]) ∧
    analyzeBatchProducts [] (fun _ => Except.error ("AI call failed")) = Except.ok [] := by
  constructor
  · have h := analyzeBatchProducts_all_failed.1
      [mkCsvProduct ("A") 1, mkCsvProduct ("B") 2]
      (fun _ => Except.error ("AI call failed"))
      (by simp)
      (fun p _ => ⟨"AI call failed", rfl⟩)
    rw [h]
    rfl
  · exact analyzeBatchProducts_all_failed.2 (fun _ => Except.error ("AI call failed"))

/-- Collapsing doubled quotes walks past a non-quote head unchanged. -/
theorem undoubleQuotes_cons_of_ne (c : Char) (t : List Char) (hc : c ≠ '"') :
    undoubleQuotes (c :: t) = c :: undoubleQuotes t := by
  cases t with
  | nil => rfl
  | cons d r => simp [undoubleQuotes, hc]

/-- Collapsing doubled quotes undoes doubling them. -/
theorem undoubleQuotes_doubleQuotes (l : List Char) :
    undoubleQuotes (doubleQuotes l) = l := by
  induction l with
  | nil => rfl
  | cons c rest ih =>
      by_cases hc : c = '"'
      · subst hc
        simp [doubleQuotes, undoubleQuotes, ih]
      · rw [show doubleQuotes (c :: rest) = c :: doubleQuotes rest by simp [doubleQuotes, hc]]
        rw [undoubleQuotes_cons_of_ne c _ hc, ih]

/-- A list without any double quote is left verbatim by the inverse rule. -/
theorem unescapeChars_of_no_quote (l : List Char) (h : l.contains '"' = false) :
    unescapeChars l = l := by
  cases l with
  | nil => rfl
  | cons c rest =>
      have hc : c ≠ '"' := by
        intro e
        subst e
        simp [List.contains_cons] at h
      simp [unescapeChars, hc]

/-- C6: the CSV field-escaping function maps an absent value to the empty
string, leaves a field without comma, double quote or newline unchanged,
wraps any other field in double quotes with internal double quotes doubled,
and round-trips: unescaping under the inverse rule reproduces every string
exactly. -/
theorem escapeCsvField_roundtrip :
    escapeCsvField none = "" ∧
    (∀ s : String, unescapeCsvField (escapeCsvField (some s)) = s) ∧
    (∀ s : String,
      (s.data.contains ',' || s.data.contains '"' || s.data.contains '\n') = false →
      escapeCsvField (some s) = s) ∧
    (∀ s : String,
      (s.data.contains ',' || s.data.contains '"' || s.data.contains '\n') = true →
      escapeCsvField (some s) = String.mk ('"' :: (doubleQuotes s.data ++ ['"']))) ∧
    escapeCsvField (some ("a,b")) = "\"a,b\"" ∧
    escapeCsvField (some ("he said \"hi\"")) = "\"he said \"\"hi\"\"\"" := by
  refine ⟨rfl, fun s => ?_, fun s hs => ?_, fun s hs => ?_, by decide, by decide⟩
  · obtain ⟨l⟩ := s
    by_cases h : (l.contains ',' || l.contains '"' || l.contains '\n') = true
    · have he : escapeCsvField (some (String.mk l)) =
          String.mk ('"' :: (doubleQuotes l ++ ['"'])) := by
        simp only [escapeCsvField]
        exact if_pos h
      rw [he]
      have hu : unescapeChars ('"' :: (doubleQuotes l ++ ['"'])) = l := by
        simp only [unescapeChars]
        rw [if_pos ⟨trivial, List.getLast?_concat _⟩, List.dropLast_concat]
        exact undoubleQuotes_doubleQuotes l
      show String.mk (unescapeChars ('"' :: (doubleQuotes l ++ ['"']))) = String.mk l
      rw [hu]
    · have he : escapeCsvField (some (String.mk l)) = String.mk l := by
        simp only [escapeCsvField]
        exact if_neg h
      rw [he]
      have hq : l.contains '"' = false := by
        cases hcq : l.contains '"'
        · rfl
        · have hm : '"' ∈ l := by simpa using hcq
          exact absurd (by simp [hm] : (l.contains ',' || l.contains '"'
            || l.contains '\n') = true) h
      show String.mk (unescapeChars l) = String.mk l
      rw [unescapeChars_of_no_quote l hq]
  · simp only [escapeCsvField]
    exact if_neg (by rw [hs]; exact Bool.false_ne_true)
  · simp only [escapeCsvField]
    exact if_pos hs

/-- Witness for C6 at concrete inputs: the quoted example round-trips, and a
plain field is emitted unquoted. -/
theorem escapeCsvField_roundtrip_witness :
    unescapeCsvField (escapeCsvField (some ("he said \"hi\""))) = "he said \"hi\"" ∧
    escapeCsvField (some ("plain")) = "plain" := by
  constructor
  · exact escapeCsvField_roundtrip.2.1 "he said \"hi\""
  · exact escapeCsvField_roundtrip.2.2.1 "plain" (by decide)

/-- A successful row walk yields exactly one product per data row. -/
theorem parseRows_ok_length (header : List String) :
    ∀ (rows : List String) (n : ℕ) (l : List CsvProduct),
      parseRows header rows n = Except.ok l → l.length = rows.length := by
  intro rows
  induction rows with
  | nil =>
      intro n l h
      simp only [parseRows] at h
      cases h
      rfl
  | cons r rest ih =>
      intro n l h
      simp only [parseRows] at h
      cases hv : validateRow header n r with
      | error e => rw [hv] at h; cases h
      | ok p =>
          rw [hv] at h
          cases hr : parseRows header rest (n + 1) with
          | error e => rw [hr] at h; cases h
          | ok ps =>
              rw [hr] at h
              cases h
              simp [ih (n + 1) ps hr]

/-- The row walk is fail-fast: when every row before `bad` validates and
`bad` fails with `e`, the whole walk fails with `e` (the numbering starts at
`n` for the first row of the slice). -/
theorem parseRows_fail_at (header : List String) :
    ∀ (pre : List String) (bad : String) (rest : List String) (n : ℕ) (e : String),
      (∀ (j : ℕ) (rj : String), pre.get? j = some rj →
        ∃ p, validateRow header (n + j) rj = Except.ok p) →
      validateRow header (n + pre.length) bad = Except.error e →
      parseRows header (pre ++ bad :: rest) n = Except.error e := by
  intro pre
  induction pre with
  | nil =>
      intro bad rest n e _ hbad
      simp only [List.length_nil, Nat.add_zero] at hbad
      simp only [List.nil_append, parseRows, hbad]
  | cons r pre' ih =>
      intro bad rest n e hpre hbad
      obtain ⟨p, hp⟩ := hpre 0 r rfl
      rw [Nat.add_zero] at hp
      have htail : parseRows header (pre' ++ bad :: rest) (n + 1) = Except.error e := by
        apply ih bad rest (n + 1) e
        · intro j rj hj
          obtain ⟨q, hq⟩ := hpre (j + 1) rj (by simpa using hj)
          exact ⟨q, by rwa [show n + (j + 1) = n + 1 + j by omega] at hq⟩
        · rwa [show n + 1 + pre'.length = n + (r :: pre').length by simp; omega]
      simp only [List.cons_append, parseRows, hp, List.append_eq, htail]

/-- C3: ingestion is all-or-nothing and fail-fast. A successful parse yields
one CsvProduct per retained data row (no partial list is representable); the
first data row whose validation fails aborts the whole parse with that row's
error; and one row's validation fails exactly at the constraints of the
source: comma-split field count differing from the header's (naming expected
and found counts), empty trimmed product name, empty current price, a price
not coercing to a finite number (quoting the offending value), or a negative
coerced price. -/
theorem parseCsv_failfast_spec :
    (∀ (text : String) (l : List CsvProduct),
      parseCsv text = Except.ok l → l.length + 1 = (nonBlankLines text).length) ∧
    (∀ (text : String) (pre : List String) (bad : String) (rest : List String) (e : String),
      (nonBlankLines text).drop 1 = pre ++ bad :: rest →
      2 ≤ (nonBlankLines text).length →
      (csvHeaderCols text).contains ("productName") = true →
      (csvHeaderCols text).contains ("currentPrice") = true →
      (∀ (j : ℕ) (rj : String), pre.get? j = some rj →
        ∃ p, validateRow (csvHeaderCols text) (2 + j) rj = Except.ok p) →
      validateRow (csvHeaderCols text) (2 + pre.length) bad = Except.error e →
      parseCsv text = Except.error e) ∧
    (∀ (header : List String) (n : ℕ) (row : String),
      (strSplitOnChar ',' row).length ≠ header.length →
      validateRow header n row =
        Except.error (colCountMsg n header.length (strSplitOnChar ',' row).length)) ∧
    (∀ (header : List String) (n : ℕ) (row : String),
      (strSplitOnChar ',' row).length = header.length →
      fieldValue header (strSplitOnChar ',' row) "productName" = "" →
      validateRow header n row = Except.error (emptyNameMsg n)) ∧
    (∀ (header : List String) (n : ℕ) (row : String),
      (strSplitOnChar ',' row).length = header.length →
      fieldValue header (strSplitOnChar ',' row) "productName" ≠ "" →
      fieldValue header (strSplitOnChar ',' row) "currentPrice" = "" →
      validateRow header n row = Except.error (emptyPriceMsg n)) ∧
    (∀ (header : List String) (n : ℕ) (row : String),
      (strSplitOnChar ',' row).length = header.length →
      fieldValue header (strSplitOnChar ',' row) "productName" ≠ "" →
      fieldValue header (strSplitOnChar ',' row) "currentPrice" ≠ "" →
      jsNumber (fieldValue header (strSplitOnChar ',' row) "currentPrice") = none →
      validateRow header n row =
        Except.error (invalidPriceMsg n (fieldValue header (strSplitOnChar ',' row) "currentPrice"))) ∧
    (∀ (header : List String) (n : ℕ) (row : String) (q : ℚ),
      (strSplitOnChar ',' row).length = header.length →
      fieldValue header (strSplitOnChar ',' row) "productName" ≠ "" →
      fieldValue header (strSplitOnChar ',' row) "currentPrice" ≠ "" →
      jsNumber (fieldValue header (strSplitOnChar ',' row) "currentPrice") = some q →
      q < 0 →
      validateRow header n row =
        Except.error (negativePriceMsg n (fieldValue header (strSplitOnChar ',' row) "currentPrice"))) := by
  refine ⟨?_, ?_, ?_, ?_, ?_, ?_, ?_⟩
  · intro text l h
    simp only [parseCsv] at h
    by_cases h1 : (nonBlankLines text).length < 2
    · rw [if_pos h1] at h
      cases h
    · rw [if_neg h1] at h
      by_cases h2 : (csvHeaderCols text).contains ("productName") = false
      · rw [if_pos h2] at h
        cases h
      · rw [if_neg h2] at h
        by_cases h3 : (csvHeaderCols text).contains ("currentPrice") = false
        · rw [if_pos h3] at h
          cases h
        · rw [if_neg h3] at h
          have := parseRows_ok_length (csvHeaderCols text) ((nonBlankLines text).drop 1) 2 l h
          rw [List.length_drop] at this
          omega
  · intro text pre bad rest e hdrop hlen hname hprice hpre hbad
    simp only [parseCsv]
    rw [if_neg (by omega)]
    rw [if_neg (fun hc => by simp at hc hname; exact hc hname)]
    rw [if_neg (fun hc => by simp at hc hprice; exact hc hprice)]
    rw [hdrop]
    exact parseRows_fail_at (csvHeaderCols text) pre bad rest 2 e hpre hbad
  · intro header n row h
    simp only [validateRow]
    rw [if_pos h]
  · intro header n row hlen hname
    simp only [validateRow]
    rw [if_neg (fun hc => hc hlen), if_pos hname]
  · intro header n row hlen hname hpriceEmpty
    simp only [validateRow]
    rw [if_neg (fun hc => hc hlen), if_neg hname, if_pos hpriceEmpty]
  · intro header n row hlen hname hpriceNe hnum
    simp only [validateRow]
    rw [if_neg (fun hc => hc hlen), if_neg hname, if_neg hpriceNe, hnum]
  · intro header n row q hlen hname hpriceNe hnum hneg
    simp only [validateRow]
    rw [if_neg (fun hc => hc hlen), if_neg hname, if_neg hpriceNe, hnum]
    simp only []
    rw [if_pos hneg]

/-- Witness for C3 at a concrete file whose second data row has a negative
price: the first data row validates, the walk aborts on the second with the
negative-price error naming row 3 and quoting the value. -/
theorem parseCsv_failfast_spec_witness :
    parseCsv ("productName,currentPrice\nA,5\nB,-1") =
      Except.error (negativePriceMsg 3 "-1") := by
  apply parseCsv_failfast_spec.2.1 ("productName,currentPrice\nA,5\nB,-1")
    ["A,5"] "B,-1" [] (negativePriceMsg 3 "-1")
  · rfl
  · decide
  · decide
  · decide
  · intro j rj hj
    cases j with
    | zero =>
        simp only [List.get?] at hj
        cases hj
        exact ⟨⟨"A", 5, "", []⟩, rfl⟩
    | succ j' => simp at hj
  · rfl

/-- Counterexample for C4: with a blank line between the header and the
offending data row, the error names row 2 although the offending line "A"
is physically the third line of the file (the row-3 message differs). -/
theorem parseCsv_blankline_rownum_counterexample :
    parseCsv ("productName,currentPrice\n\nA") = Except.error (colCountMsg 2 2 1) ∧
    (splitLines ("productName,currentPrice\n\nA")).get? 2 = some ("A") ∧
    colCountMsg 2 2 1 ≠ colCountMsg 3 2 1 := by
  exact ⟨rfl, rfl, by decide⟩

/-- C4 (amended): the row number in a validation error is the row's 1-based
position among the retained non-blank lines, counting the header as row 1
(the first failing data row after `pre` valid ones is reported as row
`2 + pre.length`); this number equals the row's physical position in the
file exactly when no line of the file is blank, since blank lines are
discarded before numbering. -/
theorem parseCsv_rownum_amended :
    (∀ text : String, (∀ l ∈ splitLines text, jsTrim l ≠ "") →
      nonBlankLines text = splitLines text) ∧
    (∀ (text : String) (hline : String) (pre : List String) (bad : String)
        (rest : List String) (e : String),
      nonBlankLines text = hline :: (pre ++ bad :: rest) →
      (csvHeaderCols text).contains ("productName") = true →
      (csvHeaderCols text).contains ("currentPrice") = true →
      (∀ (j : ℕ) (rj : String), pre.get? j = some rj →
        ∃ p, validateRow (csvHeaderCols text) (2 + j) rj = Except.ok p) →
      validateRow (csvHeaderCols text) (2 + pre.length) bad = Except.error e →
      parseCsv text = Except.error e) := by
  constructor
  · intro text hblank
    unfold nonBlankLines
    exact List.filter_eq_self.mpr (fun a ha => by simpa using hblank a ha)
  · intro text hline pre bad rest e hlines hname hprice hpre hbad
    have hlen : 2 ≤ (nonBlankLines text).length := by
      rw [hlines]
      simp only [List.length_cons, List.length_append]
      omega
    have hdrop : (nonBlankLines text).drop 1 = pre ++ bad :: rest := by
      rw [hlines]
      rfl
    simp only [parseCsv]
    rw [if_neg (by omega)]
    rw [if_neg (fun hc => by simp at hc hname; exact hc hname)]
    rw [if_neg (fun hc => by simp at hc hprice; exact hc hprice)]
    rw [hdrop]
    exact parseRows_fail_at (csvHeaderCols text) pre bad rest 2 e hpre hbad

/-- Witness for C4 (amended) at a concrete file with no blank lines: the
retained lines are the physical lines, and the offending physical row 2 is
reported as row 2. -/
theorem parseCsv_rownum_amended_witness :
    nonBlankLines ("productName,currentPrice\nA") =
      splitLines ("productName,currentPrice\nA") ∧
    parseCsv ("productName,currentPrice\nA") = Except.error (colCountMsg 2 2 1) := by
  constructor
  · exact parseCsv_rownum_amended.1 ("productName,currentPrice\nA") (by decide)
  · exact parseCsv_rownum_amended.2 ("productName,currentPrice\nA")
      "productName,currentPrice" [] "A" [] (colCountMsg 2 2 1)
      rfl (by decide) (by decide) (fun j rj hj => by simp at hj) rfl

/-- The dynamic header block contributes four columns per competitor group. -/
theorem competitorHeaders_length (m : ℕ) : (competitorHeaders m).length = 4 * m := by
  induction m with
  | zero => rfl
  | succ k ih =>
      simp only [competitorHeaders] at ih ⊢
      rw [List.range_succ, List.flatMap_append, List.length_append, ih]
      simp [competitorGroupHeaders]
      omega

/-- Every competitor group of a data row has exactly four fields. -/
theorem competitorGroup_length (cs : List Competitor) (i : ℕ) :
    (competitorGroup cs i).length = 4 := by
  unfold competitorGroup
  cases cs.get? i <;> rfl

/-- Every data row of the full export has the fixed six fields plus four per
group. -/
theorem csvRow_length (m : ℕ) (a : ProductAnalysis) :
    (csvRow m a).length = 6 + 4 * m := by
  unfold csvRow
  rw [List.length_append]
  have hgroups : ((List.range m).flatMap (competitorGroup a.competitors)).length = 4 * m := by
    induction m with
    | zero => rfl
    | succ k ih =>
        rw [List.range_succ, List.flatMap_append, List.length_append, ih]
        simp [competitorGroup_length]
        omega
  rw [hgroups]
  rfl

/-- The full-export header length is the base length plus four per group. -/
theorem csvHeaders_length (data : List ProductAnalysis) :
    (csvHeaders data).length = 6 + 4 * maxCompetitors data := by
  unfold csvHeaders
  rw [List.length_append, competitorHeaders_length]
  rfl

/-- The running maximum of a fold over `max` never decreases. -/
theorem foldl_max_le_init (l : List ProductAnalysis) :
    ∀ m : ℕ, m ≤ l.foldl (fun acc x => max acc x.competitors.length) m := by
  induction l with
  | nil => intro m; exact le_refl m
  | cons x xs ih =>
      intro m
      exact le_trans (le_max_left m x.competitors.length) (ih (max m x.competitors.length))

/-- Every analysis of the result set has at most `maxCompetitors` many
competitors. -/
theorem mem_le_maxCompetitors (data : List ProductAnalysis) (a : ProductAnalysis)
    (ha : a ∈ data) : a.competitors.length ≤ maxCompetitors data := by
  unfold maxCompetitors
  suffices h : ∀ (l : List ProductAnalysis) (m : ℕ) (b : ProductAnalysis), b ∈ l →
      b.competitors.length ≤ l.foldl (fun acc x => max acc x.competitors.length) m by
    exact h data 0 a ha
  intro l
  induction l with
  | nil => intro m b hb; cases hb
  | cons x xs ih =>
      intro m b hb
      rcases List.mem_cons.mp hb with rfl | hmem
      · exact le_trans (le_max_right m b.competitors.length) (foldl_max_le_init xs _)
      · exact ih _ b hmem

/-- A group index at or beyond the analysis's competitor count is padded with
four empty strings. -/
theorem competitorGroup_pad (cs : List Competitor) (i : ℕ) (h : cs.length ≤ i) :
    competitorGroup cs i = ["", "", "", ""] := by
  unfold competitorGroup
  rw [List.get?_eq_none.mpr h]

/-- C7: for a non-empty result set, the full-CSV header is the six fixed base
columns followed by exactly four dynamic columns per competitor group up to
the maximum competitor count of the whole set; every data row has exactly the
header's field count; every analysis has at most that many competitors, and
each of its unused groups is padded with four empty strings; and the export
produces a file. -/
theorem exportToCsv_column_alignment :
    ∀ data : List ProductAnalysis, data ≠ [] →
      csvHeaders data = baseHeaders ++ competitorHeaders (maxCompetitors data) ∧
      (csvHeaders data).length = 6 + 4 * maxCompetitors data ∧
      (∀ a ∈ data, (csvRow (maxCompetitors data) a).length = (csvHeaders data).length) ∧
      (∀ a ∈ data, a.competitors.length ≤ maxCompetitors data) ∧
      (∀ (a : ProductAnalysis) (i : ℕ), a.competitors.length ≤ i →
        competitorGroup a.competitors i = ["", "", "", ""]) ∧
      (exportToCsv data).isSome = true := by
  intro data hne
  refine ⟨rfl, csvHeaders_length data, ?_, ?_, ?_, ?_⟩
  · intro a _
    rw [csvRow_length, csvHeaders_length]
  · exact fun a ha => mem_le_maxCompetitors data a ha
  · exact fun a i h => competitorGroup_pad a.competitors i h
  · unfold exportToCsv
    rw [if_neg (fun h0 => hne (List.length_eq_zero.mp h0))]
    rfl

/-- A concrete competitor for witnesses. -/
def mkCompetitor (nm : String) : Competitor :=
  { url := "", productName := nm, price := JsValue.num 10,
    stockStatus := StockStatus.inStock, priceTrend := PriceTrend.stable }

/-- A concrete analysis with one competitor. -/
def exampleAnalysisOneComp : ProductAnalysis :=
  { mkAnalysis ("A") 1 with competitors := [mkCompetitor ("X")] }

/-- A concrete analysis with three competitors. -/
def exampleAnalysisThreeComp : ProductAnalysis :=
  { mkAnalysis ("B") 2 with
    competitors := [mkCompetitor ("Y1"), mkCompetitor ("Y2"), mkCompetitor ("Y3")] }

/-- A concrete two-analysis result set with competitor counts 1 and 3. -/
def exampleData : List ProductAnalysis :=
  [exampleAnalysisOneComp, exampleAnalysisThreeComp]

/-- Witness for C7 at the concrete result set with competitor counts 1 and 3:
the header has 18 fields (6 base + 12 dynamic), the first row has 18 fields,
and its two unused competitor groups are all empty strings. -/
theorem exportToCsv_column_alignment_witness :
    (csvHeaders exampleData).length = 18 ∧
    (csvRow (maxCompetitors exampleData) exampleAnalysisOneComp).length = 18 ∧
    competitorGroup exampleAnalysisOneComp.competitors 1 = ["", "", "", ""] ∧
    competitorGroup exampleAnalysisOneComp.competitors 2 = ["", "", "", ""] := by
  have h := exportToCsv_column_alignment exampleData (by simp [exampleData])
  refine ⟨?_, ?_, ?_, ?_⟩
  · rw [h.2.1]
    rfl
  · rw [h.2.2.1 exampleAnalysisOneComp (by simp [exampleData]), h.2.1]
    rfl
  · exact h.2.2.2.2.1 exampleAnalysisOneComp 1 (by decide)
  · exact h.2.2.2.2.1 exampleAnalysisOneComp 2 (by decide)
